import Mathlib

/-!
Verification development for the npm module fetcher of
`src/packages/app/src/sandbox/eval/npm/fetch-npm-module.ts`.

The definitions below are a shallow embedding of that file: pure helpers are
translated directly, the shared mutable caches (`metas`, `packages`) become an
explicit `CacheState` threaded through step functions, promises are named by
numeric ids, and network requests are counted by an explicit counter.  Regular
expression tests are modelled as executable predicates over the character list
of a string.
-/

namespace FetchNpm

/-- Character-list prefix test: `startsWithList pre l` holds when `pre` is an
initial segment of `l`.  Used to model anchored regular expressions such as
`/^npm:/`. -/
def startsWithList : List Char → List Char → Bool
  | [], _ => true
  | _ :: _, [] => false
  | c :: cs, d :: ds => c == d && startsWithList cs ds

/-- Character membership test, used to model unanchored single-character
regular expressions such as `/\//`. -/
def hasChar : List Char → Char → Bool
  | [], _ => false
  | d :: ds, c => d == c || hasChar ds c

/-- Modelled from the spec: `pathUtils.join` from `@codesandbox/common/es/utils/path`
(the `common` package is not under `src/`).  Joins two path segments with a
single `/` separator, on character lists. -/
def joinData (a b : List Char) : List Char :=
  if a = [] then b
  else if b = [] then a
  else if a.getLast? = some '/' then
    if b.head? = some '/' then a ++ b.tail else a ++ b
  else if b.head? = some '/' then a ++ b
  else a ++ '/' :: b

/-- Modelled from the spec: `pathUtils.join` on strings (see `joinData`). -/
def pathJoin (a b : String) : String :=
  ⟨joinData a.data b.data⟩

/-- Three-argument join, as in `pathUtils.join('/node_modules', name, 'package.json')`. -/
def pathJoin3 (a b c : String) : String :=
  pathJoin (pathJoin a b) c

/-- ASCII word character, modelling the regex class `\w`. -/
def isWordChar (c : Char) : Bool :=
  ('a' ≤ c && c ≤ 'z') || ('A' ≤ c && c ≤ 'Z') || ('0' ≤ c && c ≤ '9') || c == '_'

/-- A character allowed in a GitHub `user/repo` slug segment: word characters,
dashes and dots.  Used to state the claim about slug-shaped version strings. -/
def isSlugChar (c : Char) : Bool :=
  isWordChar c || c == '-' || c == '.'

/-- Modelled from the spec: `CSB_PKG_PROTOCOL` from `@codesandbox/common/es/utils/ci`
(not under `src/`).  The draft (csb.dev) protocol distinguishes versions that
are pre-built archive URLs of the first-party package host; we model its
regular-expression test as a check that the version string starts with the
first-party package host URL. -/
def CSB_PKG_PROTOCOL_test (v : String) : Bool :=
  startsWithList "https://pkg.csb.dev".data v.data

/-- The test `/\//.test(depVersion)` from `getFetchProtocol` (line 168). -/
def slashTest (v : String) : Bool :=
  hasChar v.data '/'

/-- The four URL protocols of the `urlProtocols` table (lines 72-123). -/
inductive Protocol
  | csbGH
  | unpkg
  | jsDelivrNPM
  | jsDelivrGH
deriving DecidableEq

/-- `getFetchProtocol` (lines 161-175): draft test first, then the `/` test,
then the CDN-NPM backend or the unpkg fallback. -/
def getFetchProtocol (depVersion : String) (useFallback : Bool) : Protocol :=
  if CSB_PKG_PROTOCOL_test depVersion then Protocol.csbGH
  else if slashTest depVersion then Protocol.jsDelivrGH
  else if useFallback then Protocol.unpkg
  else Protocol.jsDelivrNPM

/-- The test `version.match(/^npm:/)` from `resolveNPMAlias` (lines 185-187). -/
def IS_ALIAS_test (v : String) : Bool :=
  startsWithList "npm:".data v.data

/-- Splits a character list at the last `'@'` that has at least one character
after it, returning the pieces before and after that `'@'`.  This is the
greedy behaviour of the capture groups in `/^npm:(.+)@(.+)/`: the first
(greedy) group extends to the last `'@'` that still leaves the second group
non-empty. -/
def lastAtSplit : List Char → Option (List Char × List Char)
  | [] => none
  | c :: cs =>
    match lastAtSplit cs with
    | some (l, r) => some (c :: l, r)
    | none => if c == '@' && !cs.isEmpty then some ([], cs) else none

/-- The match `version.match(/^npm:(.+)@(.+)/)` from `resolveNPMAlias`
(line 191): `none` models the match returning `null`. -/
def npmAliasMatch (v : String) : Option (String × String) :=
  if startsWithList "npm:".data v.data then
    match lastAtSplit (v.data.drop 4) with
    | some (l, r) => if l.isEmpty then none else some (⟨l⟩, ⟨r⟩)
    | none => none
  else none

/-- `resolveNPMAlias` (lines 184-193).  `none` models the runtime `TypeError`
raised when the alias match is `null` and `parts[1]` is dereferenced. -/
def resolveNPMAlias (name version : String) : Option (String × String) :=
  if IS_ALIAS_test version then
    match npmAliasMatch version with
    | some (p1, p2) => some (p1, p2)
    | none => none
  else some (name, version)

/-- JS `a || b` on an optional string, where the empty string is falsy; models
`packageJSONPath || depName` in `getMeta` (line 203). -/
def strOr (a : Option String) (b : String) : String :=
  match a with
  | some s => if s = "" then b else s
  | none => b

/-- Lookup in an association list, modelling the JS object access `m[id]`
(`none` models `undefined`). -/
def mapLookup : List (String × Nat) → String → Option Nat
  | [], _ => none
  | (k, v) :: rest, id => if k = id then some v else mapLookup rest id

/-- The shared mutable module-level state of `fetch-npm-module.ts`: the
`metas` and `packages` caches (lines 30, 33), both mapping a cache key to the
numeric id of the stored promise, together with a fresh-promise counter and a
count of network requests issued so far. -/
structure CacheState where
  metas : List (String × Nat)
  packages : List (String × Nat)
  nextId : Nat
  requests : Nat
deriving DecidableEq

/-- The synchronous cache discipline of `getMeta` (lines 195-221): resolve the
npm alias, build the id `(packageJSONPath || depName)@depVersion`, return the
stored promise when present, otherwise store a fresh promise and issue one
network request (the URL construction and response parsing are abstracted into
the request counter).  `none` models `resolveNPMAlias` throwing. -/
def getMetaStep (s : CacheState) (name : String) (packageJSONPath : Option String)
    (version : String) (useFallback : Bool) : Option (CacheState × Nat) :=
  match resolveNPMAlias name version with
  | none => none
  | some (depName, depVersion) =>
    let id := strOr packageJSONPath depName ++ "@" ++ depVersion
    match mapLookup s.metas id with
    | some p => some (s, p)
    | none =>
      some (⟨(id, s.nextId) :: s.metas, s.packages, s.nextId + 1, s.requests + 1⟩, s.nextId)

/-- The rejection handler installed by `getMeta` (lines 214-218): on a failed
metadata fetch the entry is deleted from `metas` and the error rethrown. -/
def metaFetchFailed (s : CacheState) (id : String) : CacheState :=
  ⟨s.metas.filter (fun kv => !(kv.1 == id)), s.packages, s.nextId, s.requests⟩

/-- The synchronous cache discipline of `downloadDependency` (lines 223-267):
resolve the npm alias, build the id `depName + depVersion + path`, return the
stored promise when present, otherwise store a fresh promise and issue one
network request.  `none` models `resolveNPMAlias` throwing. -/
def downloadStep (s : CacheState) (name version path : String) : Option (CacheState × Nat) :=
  match resolveNPMAlias name version with
  | none => none
  | some (depName, depVersion) =>
    let id := depName ++ depVersion ++ path
    match mapLookup s.packages id with
    | some p => some (s, p)
    | none =>
      some (⟨s.metas, (id, s.nextId) :: s.packages, s.nextId + 1, s.requests + 1⟩, s.nextId)

/-- Rejection of a stored content promise: the promise chain built by
`downloadDependency` (lines 246-264) installs no handler that mutates
`packages`, so a rejected content promise leaves the cache state unchanged. -/
def downloadFetchFailed (s : CacheState) (id : String) : CacheState :=
  s

/-- The wait of `fetchWithRetries` (lines 137-141): given the current clock
and the start time of the previous attempt, advance the clock by
`delay(3000 - (Date.now() - lastTryTime))` when fewer than 3000ms have passed
since the previous attempt started, and leave it unchanged otherwise. -/
def delayStep (clock lastTryTime : Nat) : Nat :=
  if clock - lastTryTime < 3000 then clock + (3000 - (clock - lastTryTime)) else clock

/-- Trace of one run of the `fetchWithRetries` loop: the clock value at the
start of each attempt, and `some i` when attempt `i` succeeded (`none` when
the loop raised the network failure). -/
structure RetryRun where
  starts : List Nat
  result : Option Nat
deriving DecidableEq

/-- The retry loop of `fetchWithRetries` (lines 135-154), parametrised by the
outcome `ok i` of attempt `i` and by the duration `dur i` the attempt takes.
`fuel` is the number of loop iterations left (`retries - i`); on failure of
attempt `retries - 1` the error is rethrown (result `none`). -/
def fetchWithRetriesRun (ok : Nat → Bool) (dur : Nat → Nat) (retries : Nat) :
    Nat → Nat → Nat → Nat → RetryRun
  | 0, _, _, _ => ⟨[], none⟩
  | fuel + 1, i, clock, lastTryTime =>
    let start := delayStep clock lastTryTime
    if ok i then ⟨[start], some i⟩
    else if i == retries - 1 then ⟨[start], none⟩
    else
      let rest := fetchWithRetriesRun ok dur retries fuel (i + 1) (start + dur i) start
      ⟨start :: rest.starts, rest.result⟩

/-- `fetchWithRetries` (lines 125-155) as a trace: the loop starts at attempt
`0` with `lastTryTime = 0` and the ambient clock at `t0`. -/
def fetchWithRetriesModel (ok : Nat → Bool) (dur : Nat → Nat) (retries t0 : Nat) : RetryRun :=
  fetchWithRetriesRun ok dur retries retries 0 t0 0

/-- One root dependency declaration `{name, version}` of the project manifest. -/
structure Dependency where
  name : String
  version : String
deriving DecidableEq

/-- A transitive lock record `manifest.dependencyDependencies[name]`:
the `semver` requested (possibly a pinned URL) and the `resolved` version. -/
structure DepDep where
  semver : String
  resolved : String
deriving DecidableEq

/-- The read-only project manifest (`manager.manifest`): the root `dependencies`
list and the transitive `dependencyDependencies` record. -/
structure Manifest where
  dependencies : List Dependency
  dependencyDependencies : String → Option DepDep

/-- The test `semver.startsWith('https://')` (lines 430, 448). -/
def startsWithHttps (s : String) : Bool :=
  startsWithList "https://".data s.data

/-- Result type `DependencyVersionResult` (lines 369-382): the version found
and, when known, the resolved path of the package manifest file. -/
structure DepVersionResult where
  version : String
  packageJSONPath : Option String
deriving DecidableEq

/-- `getDependencyVersion` (lines 384-471).  The surrounding effects are made
explicit parameters: `resolved` is the outcome of the `resolvePath` call for
`<dependencyName>/package.json` (`none` when it threw), `moduleCode p` is
`manager.transpiledModules[p].module.code` (`none` when the module is absent,
in which case `JSON.parse(undefined)` throws), and `parseVersion c` is
`JSON.parse(c).version` (`none` when parsing throws).  A `none` produced by
the try block models both an exception caught by the empty catch and the
fall-through when `packageJSON === '//empty.js'`: both continue with the
lock-record / root-manifest fallback after the try block. -/
def getDependencyVersion (resolved : Option String) (moduleCode : String → Option String)
    (parseVersion : String → Option String) (manifest : Manifest)
    (dependencyName : String) : Option DepVersionResult :=
  let rootManifestPath := pathJoin3 "/node_modules" dependencyName "package.json"
  let tryBlock : Option DepVersionResult :=
    match resolved with
    | none => none
    | some foundPackageJSONPath =>
      let rootReturn : Option DepVersionResult :=
        if foundPackageJSONPath = rootManifestPath then
          match manifest.dependencies.find? (fun dep => dep.name == dependencyName) with
          | some rootDependency =>
            some ⟨rootDependency.version, some foundPackageJSONPath⟩
          | none => none
        else none
      match rootReturn with
      | some r => some r
      | none =>
        match moduleCode foundPackageJSONPath with
        | none => none
        | some packageJSON =>
          match parseVersion packageJSON with
          | none => none
          | some version =>
            match manifest.dependencyDependencies dependencyName with
            | some savedDepDep =>
              if savedDepDep.resolved == version && startsWithHttps savedDepDep.semver then
                some ⟨savedDepDep.semver, some foundPackageJSONPath⟩
              else if packageJSON ≠ "//empty.js" then
                some ⟨version, some foundPackageJSONPath⟩
              else none
            | none =>
              if packageJSON ≠ "//empty.js" then
                some ⟨version, some foundPackageJSONPath⟩
              else none
  match tryBlock with
  | some r => some r
  | none =>
    match manifest.dependencyDependencies dependencyName with
    | some dd =>
      some ⟨if startsWithHttps dd.semver then dd.semver else dd.resolved, none⟩
    | none =>
      match manifest.dependencies.find? (fun dep => dep.name == dependencyName) with
      | some dep => some ⟨dep.version, none⟩
      | none => none

/-- The `type` field of a `MetaFiles` entry (lines 24-28). -/
inductive MetaFileType
  | file
  | directory
deriving DecidableEq

/-- One entry of a nested `MetaFiles` metadata tree (lines 24-28): a path, a
type, and the nested entries (empty when the `files` field is absent). -/
inductive MetaTree
  | mk (path : String) (type : MetaFileType) (files : List MetaTree)

mutual

/-- The body of one iteration of the `normalize` loop (lines 36-45): a
file-typed entry contributes `rootPath + files[i].path` (raw string
concatenation), then the nested entries are normalized recursively. -/
def normalizeEntry (f : MetaTree) (fileObject : List String) (rootPath : String) :
    List String :=
  match f with
  | .mk path type files =>
    let fo := if type = MetaFileType.file then fileObject ++ [rootPath ++ path] else fileObject
    normalize files fo rootPath

/-- `normalize` (lines 35-48): folds the nested metadata tree into the flat
existence set, accumulated in `fileObject` (the `Meta` object of the source is
modelled as the list of paths mapped to `true`). -/
def normalize (files : List MetaTree) (fileObject : List String) (rootPath : String) :
    List String :=
  match files with
  | [] => fileObject
  | f :: rest => normalize rest (normalizeEntry f fileObject rootPath) rootPath

end

/-- `normalizeJSDelivr` (lines 50-57): each flat entry `{name}` contributes
`pathUtils.join(rootPath, files[i].name)`. -/
def normalizeJSDelivr (files : List String) (fileObject : List String) (rootPath : String) :
    List String :=
  match files with
  | [] => fileObject
  | n :: rest => normalizeJSDelivr rest (fileObject ++ [pathJoin rootPath n]) rootPath

mutual

/-- The set of file paths described by one nested metadata entry: its own
path when file-typed, plus those of its nested entries. -/
def entryFilePaths (f : MetaTree) : List String :=
  match f with
  | .mk path type files =>
    (if type = MetaFileType.file then [path] else []) ++ listFilePaths files

/-- The set of file paths described by a nested metadata tree. -/
def listFilePaths (ts : List MetaTree) : List String :=
  match ts with
  | [] => []
  | t :: rest => entryFilePaths t ++ listFilePaths rest

end

/-- The virtual-filesystem existence oracle of `resolvePath` (line 281):
`Boolean(manager.transpiledModules[p]) || Boolean(meta[p])`, with the module
graph and the supplied metadata set modelled as lists of paths. -/
def isFileOracle (graphPaths metaPaths : List String) (p : String) : Bool :=
  graphPaths.contains p || metaPaths.contains p

/-- The loop-termination guard of `resolvePath` (line 314): a candidate path
absent from both the module graph and the supplied metadata is answered with
an `ENOENT` error for that candidate. -/
def readFileMisses (graphPaths metaPaths : List String) (p : String) : Bool :=
  !(graphPaths.contains p) && !(metaPaths.contains p)

/-- The extension probe list: the candidate itself, then the default
extensions `['js', 'jsx', 'json', 'mjs']` (line 273). -/
def extensionCandidates (p : String) : List String :=
  [p, p ++ ".js", p ++ ".jsx", p ++ ".json", p ++ ".mjs"]

/-- Modelled from the spec: the load-as-file step of the hierarchical module
resolution run by `browser-resolve` (an external collaborator, spec section 4.4):
probe the candidate and then each configured extension, in order. -/
def loadAsFile (isFile : String → Bool) (p : String) : Option String :=
  (extensionCandidates p).find? isFile

/-- Modelled from the spec: the load-as-directory step (spec section 4.4,
package entry-point field handling and directory-index fallback).  `mainOf dir`
is the entry-point declared by `dir/package.json` when that manifest is
available, otherwise the `index` fallback is probed. -/
def loadAsDirectory (isFile : String → Bool) (mainOf : String → Option String)
    (dir : String) : Option String :=
  match mainOf dir with
  | some m =>
    (loadAsFile isFile (pathJoin dir m)).orElse
      (fun _ => loadAsFile isFile (pathJoin (pathJoin dir m) "index"))
  | none => loadAsFile isFile (pathJoin dir "index")

/-- Modelled from the spec: one resolution candidate is tried first as a file
and then as a directory (spec section 4.4). -/
def resolveCandidate (isFile : String → Bool) (mainOf : String → Option String)
    (p : String) : Option String :=
  match loadAsFile isFile p with
  | some r => some r
  | none => loadAsDirectory isFile mainOf p

/-- Splits a character list on `'/'`, collecting the non-empty segments; `cur`
holds the characters of the current segment in reverse. -/
def segmentsData : List Char → List Char → List String
  | [], cur => if cur.isEmpty then [] else [⟨cur.reverse⟩]
  | c :: rest, cur =>
    if c = '/' then
      (if cur.isEmpty then [] else [⟨cur.reverse⟩]) ++ segmentsData rest []
    else segmentsData rest (c :: cur)

/-- The `/`-separated non-empty segments of a path. -/
def pathSegments (p : String) : List String :=
  segmentsData p.data []

/-- Rebuilds an absolute directory path from segments (the empty list is the
filesystem root, printed as the empty prefix of `/node_modules`). -/
def segmentsToPath (segs : List String) : String :=
  segs.foldl (fun acc s => acc ++ "/" ++ s) ""

/-- All prefixes of a segment list, longest first. -/
def segmentPrefixes : List String → List (List String)
  | [] => [[]]
  | s :: rest => (segmentPrefixes rest).map (fun segs => s :: segs) ++ [[]]

/-- Modelled from the spec: the directory-hierarchy ascent of module lookup
(spec section 4.4): every ancestor directory of the requesting module's
directory contributes a `node_modules` lookup directory, nearest first. -/
def nodeModulesDirs (fromPath : String) : List String :=
  (segmentPrefixes (pathSegments fromPath).dropLast).map
    (fun segs => segmentsToPath segs ++ "/node_modules")

/-- Modelled from the spec: the directory of a path (`pathUtils.dirname`). -/
def dirname (p : String) : String :=
  segmentsToPath (pathSegments p).dropLast

/-- Modelled from the spec: hierarchical module resolution (spec section 4.4)
against the existence oracle `isFile`: relative and absolute requests resolve
as a single candidate, bare requests walk the `node_modules` directories of
the requesting module's ancestor directories. -/
def resolveRequest (isFile : String → Bool) (mainOf : String → Option String)
    (fromPath request : String) : Option String :=
  match request.data with
  | '.' :: _ => resolveCandidate isFile mainOf (pathJoin (dirname fromPath) request)
  | '/' :: _ => resolveCandidate isFile mainOf request
  | _ =>
    (nodeModulesDirs fromPath).findSome?
      (fun dir => resolveCandidate isFile mainOf (pathJoin dir request))

/-- The test `/^(\w|@\w|@-)/.test(path)` from `fetchModule` (line 540): the
request looks like a bare package specifier. -/
def isDependencyTest (path : String) : Bool :=
  match path.data with
  | [] => false
  | '@' :: c :: _ => isWordChar c || c == '-'
  | c :: _ => isWordChar c

/-- The `Module` object synthesized by the stub branch of `fetchModule`
(lines 542-549). -/
structure StubModule where
  path : String
  code : String
  requires : List String
  stubbed : Bool
deriving DecidableEq

/-- The outcome of `fetchModule` after path resolution: either the synthesized
stub, or a call to `downloadDependency` with the given triple. -/
inductive FetchModuleOutcome
  | stub (m : StubModule)
  | download (name version path : String)
deriving DecidableEq

/-- The tail of `fetchModule` (lines 536-552), parametrised by `foundPath`,
the outcome of `resolvePath`: the sentinel `//empty.js` yields the stub module
(whose recorded path depends on whether the request looks like a bare package
specifier), every other resolved path is downloaded. -/
def fetchModuleResolved (path currentPath dependencyName version foundPath : String) :
    FetchModuleOutcome :=
  if foundPath = "//empty.js" then
    let isDependency := isDependencyTest path
    FetchModuleOutcome.stub
      ⟨if isDependency then pathJoin "/node_modules" path else pathJoin currentPath path,
       "module.exports = \x7b\x7d;", [], true⟩
  else FetchModuleOutcome.download dependencyName version foundPath

/-! ### Helper lemmas -/

theorem startsWithList_append (pre rest : List Char) :
    startsWithList pre (pre ++ rest) = true := by
  induction pre with
  | nil => rfl
  | cons c cs ih => simp [startsWithList, ih]

theorem mem_of_startsWithList (pre l : List Char) (c : Char)
    (h : startsWithList pre l = true) (hm : c ∈ pre) : c ∈ l := by
  induction pre generalizing l with
  | nil => cases hm
  | cons d ds ih =>
    cases l with
    | nil => simp [startsWithList] at h
    | cons e es =>
      simp only [startsWithList, Bool.and_eq_true, beq_iff_eq] at h
      rcases List.mem_cons.mp hm with hc | hc
      · subst hc; rw [h.1]; exact List.mem_cons_self _ _
      · exact List.mem_cons_of_mem _ (ih es h.2 hc)

theorem hasChar_iff (l : List Char) (c : Char) : hasChar l c = true ↔ c ∈ l := by
  induction l with
  | nil => simp [hasChar]
  | cons d ds ih =>
    simp only [hasChar, Bool.or_eq_true, beq_iff_eq, ih, List.mem_cons]
    constructor
    · rintro (h | h)
      · exact Or.inl h.symm
      · exact Or.inr h
    · rintro (h | h)
      · exact Or.inl h.symm
      · exact Or.inr h

theorem lastAtSplit_eq_none (l : List Char) (h : hasChar l '@' = false) :
    lastAtSplit l = none := by
  induction l with
  | nil => rfl
  | cons c cs ih =>
    simp only [hasChar, Bool.or_eq_false_iff, beq_eq_false_iff_ne] at h
    simp [lastAtSplit, ih h.2, h.1]

theorem lookup_filter_out (l : List (String × Nat)) (id : String) :
    mapLookup (l.filter (fun kv => !(kv.1 == id))) id = none := by
  induction l with
  | nil => rfl
  | cons kv rest ih =>
    rw [List.filter_cons]
    by_cases h : kv.1 = id
    · rw [if_neg (by simp [h])]
      exact ih
    · rw [if_pos (by simp [h])]
      cases kv with
      | mk k v =>
        rw [mapLookup, if_neg h]
        exact ih

theorem delayStep_lower (clock lastTryTime : Nat) (h : lastTryTime ≤ clock) :
    lastTryTime + 3000 ≤ delayStep clock lastTryTime := by
  unfold delayStep
  split <;> omega

theorem delayStep_ge (clock lastTryTime : Nat) : clock ≤ delayStep clock lastTryTime := by
  unfold delayStep
  split <;> omega

theorem pathJoin_eq_append (a b : String) (ha : a.data.getLast? ≠ some '/')
    (hb : b.data.head? = some '/') : pathJoin a b = a ++ b := by
  apply String.ext
  show joinData a.data b.data = (a ++ b).data
  rw [String.data_append]
  unfold joinData
  by_cases haa : a.data = []
  · simp [haa]
  · have hbb : b.data ≠ [] := by
      intro hn
      rw [hn] at hb
      simp at hb
    simp [haa, hbb, ha, hb]

mutual

theorem normalizeEntry_spec (f : MetaTree) (acc : List String) (root : String) :
    normalizeEntry f acc root = acc ++ (entryFilePaths f).map (fun p => root ++ p) := by
  match f with
  | .mk p t files =>
    rw [normalizeEntry, entryFilePaths, normalize_spec files _ root]
    cases t <;> simp [List.append_assoc]

theorem normalize_spec (ts : List MetaTree) (acc : List String) (root : String) :
    normalize ts acc root = acc ++ (listFilePaths ts).map (fun p => root ++ p) := by
  match ts with
  | [] => simp [normalize, listFilePaths]
  | t :: rest =>
    rw [normalize, listFilePaths, normalize_spec rest _ root, normalizeEntry_spec t acc root]
    simp [List.append_assoc]

end

theorem normalizeJSDelivr_spec (fs : List String) (acc : List String) (root : String) :
    normalizeJSDelivr fs acc root = acc ++ fs.map (fun n => pathJoin root n) := by
  induction fs generalizing acc with
  | nil => simp [normalizeJSDelivr]
  | cons n rest ih =>
    rw [normalizeJSDelivr, ih]
    simp [List.append_assoc]

theorem retriesRun_starts_length (dur : Nat → Nat) (retries : Nat) :
    ∀ fuel i clock lastTryTime, 0 < fuel → i + fuel = retries →
      (fetchWithRetriesRun (fun _ => false) dur retries fuel i clock lastTryTime).starts.length
          = fuel ∧
      (fetchWithRetriesRun (fun _ => false) dur retries fuel i clock lastTryTime).result
          = none := by
  intro fuel
  induction fuel with
  | zero => intro i clock lastTryTime h; omega
  | succ f ih =>
    intro i clock lastTryTime _ htot
    rw [fetchWithRetriesRun]
    by_cases hi : i = retries - 1
    · have hf : f = 0 := by omega
      simp [hi, hf]
    · have hf : 0 < f := by omega
      have := ih (i + 1) (delayStep clock lastTryTime + dur i) (delayStep clock lastTryTime)
        hf (by omega)
      simp only [Bool.false_eq_true, if_false, beq_iff_eq, hi]
      simp [this.1, this.2]

theorem retriesRun_starts_head (dur : Nat → Nat) (retries : Nat)
    (fuel i clock lastTryTime : Nat) (h : 0 < fuel) :
    (fetchWithRetriesRun (fun _ => false) dur retries fuel i clock
        lastTryTime).starts.head? = some (delayStep clock lastTryTime) := by
  match fuel, h with
  | f + 1, _ =>
    rw [fetchWithRetriesRun]
    by_cases hi : i = retries - 1 <;> simp [hi]

theorem retriesRun_starts_spaced (dur : Nat → Nat) (retries : Nat) :
    ∀ fuel i clock lastTryTime,
      (fetchWithRetriesRun (fun _ => false) dur retries fuel i clock
          lastTryTime).starts.Chain' (fun a b => a + 3000 ≤ b) := by
  intro fuel
  induction fuel with
  | zero => intro i clock lastTryTime; simp [fetchWithRetriesRun]
  | succ f ih =>
    intro i clock lastTryTime
    rw [fetchWithRetriesRun]
    by_cases hi : i = retries - 1
    · simp [hi]
    · simp only [Bool.false_eq_true, if_false, beq_iff_eq, hi]
      rw [List.chain'_cons']
      refine ⟨?_, ih (i + 1) _ _⟩
      intro y hy
      rcases Nat.eq_zero_or_pos f with hf | hf
      · subst hf
        simp [fetchWithRetriesRun] at hy
      · rw [retriesRun_starts_head dur retries f _ _ _ hf] at hy
        simp only [Option.mem_def, Option.some.injEq] at hy
        subst hy
        exact delayStep_lower _ _ (Nat.le_add_right _ _)

/-! ### Claim theorems -/

/-- C2: backend selection is evaluated in fixed order over the version string
(draft pattern, then `/`, then the CDN-NPM backend or the unpkg fallback);
every `user/repo`-shaped version selects the GitHub backend, and no purely
numeric semver such as `1.2.3` ever does. -/
theorem backend_selection (user repo v : String) (fb : Bool)
    (hu1 : user.data ≠ []) (hu2 : ∀ c ∈ user.data, isSlugChar c = true)
    (hr1 : repo.data ≠ []) (hr2 : ∀ c ∈ repo.data, isSlugChar c = true)
    (hv1 : v.data ≠ []) (hv2 : ∀ c ∈ v.data, (c.isDigit || c == '.') = true) :
    (∀ w fb2, getFetchProtocol w fb2 =
        if CSB_PKG_PROTOCOL_test w then Protocol.csbGH
        else if slashTest w then Protocol.jsDelivrGH
        else if fb2 then Protocol.unpkg else Protocol.jsDelivrNPM) ∧
    getFetchProtocol (user ++ "/" ++ repo) fb = Protocol.jsDelivrGH ∧
    getFetchProtocol v fb ≠ Protocol.jsDelivrGH := by
  refine ⟨fun w fb2 => rfl, ?_, ?_⟩
  · have hcsb : CSB_PKG_PROTOCOL_test (user ++ "/" ++ repo) = false := by
      cases hb : CSB_PKG_PROTOCOL_test (user ++ "/" ++ repo) with
      | false => rfl
      | true =>
        exfalso
        unfold CSB_PKG_PROTOCOL_test at hb
        have hc : ':' ∈ (user ++ "/" ++ repo).data :=
          mem_of_startsWithList _ _ ':' hb (by decide)
        rw [String.data_append, String.data_append] at hc
        rcases List.mem_append.mp hc with hc | hc
        · rcases List.mem_append.mp hc with hc | hc
          · exact absurd (hu2 ':' hc) (by decide)
          · simp at hc
        · exact absurd (hr2 ':' hc) (by decide)
    have hslash : slashTest (user ++ "/" ++ repo) = true := by
      unfold slashTest
      rw [hasChar_iff, String.data_append, String.data_append]
      exact List.mem_append.mpr (Or.inl (List.mem_append.mpr (Or.inr (by decide))))
    simp [getFetchProtocol, hcsb, hslash]
  · have hcsb : CSB_PKG_PROTOCOL_test v = false := by
      cases hb : CSB_PKG_PROTOCOL_test v with
      | false => rfl
      | true =>
        exfalso
        unfold CSB_PKG_PROTOCOL_test at hb
        have hc : ':' ∈ v.data := mem_of_startsWithList _ _ ':' hb (by decide)
        exact absurd (hv2 ':' hc) (by decide)
    have hslash : slashTest v = false := by
      cases hb : slashTest v with
      | false => rfl
      | true =>
        exfalso
        unfold slashTest at hb
        have hc : '/' ∈ v.data := (hasChar_iff _ _).mp hb
        exact absurd (hv2 '/' hc) (by decide)
    cases fb <;> simp [getFetchProtocol, hcsb, hslash]

/-- Witness for `backend_selection` at `user = "user"`, `repo = "repo"`,
`v = "1.2.3"`. -/
theorem backend_selection_witness :
    getFetchProtocol ("user" ++ "/" ++ "repo") false = Protocol.jsDelivrGH ∧
    getFetchProtocol "1.2.3" false ≠ Protocol.jsDelivrGH :=
  ⟨(backend_selection "user" "repo" "1.2.3" false (by decide) (by decide) (by decide)
      (by decide) (by decide) (by decide)).2.1,
   (backend_selection "user" "repo" "1.2.3" false (by decide) (by decide) (by decide)
      (by decide) (by decide) (by decide)).2.2⟩

/-- C10: a version of the form `npm:<text>` with no `'@'` in `<text>` makes
`resolveNPMAlias` fail (the alias match is `null` and is dereferenced), and
the failure is reachable from the public `downloadDependency` entry point as
well as from `getMeta`. -/
theorem malformed_npm_alias (name text : String)
    (hat : hasChar text.data '@' = false) :
    resolveNPMAlias name ("npm:" ++ text) = none ∧
    (∀ s path, downloadStep s name ("npm:" ++ text) path = none) ∧
    (∀ s pkgPath fb, getMetaStep s name pkgPath ("npm:" ++ text) fb = none) := by
  have hpre : startsWithList "npm:".data ("npm:" ++ text).data = true := by
    rw [String.data_append]
    exact startsWithList_append _ _
  have hdrop : ("npm:" ++ text).data.drop 4 = text.data := by
    have h4 : ("npm:".data).length = 4 := rfl
    rw [String.data_append, ← h4]
    exact List.drop_left _ _
  have hmatch : npmAliasMatch ("npm:" ++ text) = none := by
    unfold npmAliasMatch
    rw [hpre, hdrop, lastAtSplit_eq_none text.data hat]
    rfl
  have hres : resolveNPMAlias name ("npm:" ++ text) = none := by
    unfold resolveNPMAlias IS_ALIAS_test
    rw [hpre, hmatch]
    rfl
  refine ⟨hres, ?_, ?_⟩
  · intro s path
    unfold downloadStep
    rw [hres]
  · intro s pkgPath fb
    unfold getMetaStep
    rw [hres]

/-- Witness for `malformed_npm_alias` at `name = "a"`, `text = "foo"`. -/
theorem malformed_npm_alias_witness :
    resolveNPMAlias "a" ("npm:" ++ "foo") = none :=
  (malformed_npm_alias "a" "foo" (by decide)).1

/-- C3: when `resolvePath` resolves `<dependencyName>/package.json` to exactly
`/node_modules/<dependencyName>/package.json` and the root manifest declares
the dependency, `getDependencyVersion` returns the root manifest's declared
version — for every `moduleCode` and `parseVersion`, so never the `version`
field parsed from the fetched manifest content. -/
theorem root_manifest_version (moduleCode parseVersion : String → Option String)
    (manifest : Manifest) (depName : String) (rootDep : Dependency)
    (hfind : manifest.dependencies.find? (fun dep => dep.name == depName) = some rootDep) :
    getDependencyVersion (some (pathJoin3 "/node_modules" depName "package.json"))
        moduleCode parseVersion manifest depName =
      some ⟨rootDep.version, some (pathJoin3 "/node_modules" depName "package.json")⟩ := by
  unfold getDependencyVersion
  simp [hfind]

/-- Witness for `root_manifest_version`: the root manifest declares `pkg` with
a URL-form version, the fetched manifest content parses to `9.9.9`, and the
URL-form version is returned. -/
theorem root_manifest_version_witness :
    getDependencyVersion (some (pathJoin3 "/node_modules" "pkg" "package.json"))
        (fun _ => some "x") (fun _ => some "9.9.9")
        ⟨[⟨"pkg", "https://pkg.csb.dev/x/_pkg.tgz"⟩], fun _ => none⟩ "pkg" =
      some ⟨"https://pkg.csb.dev/x/_pkg.tgz",
            some (pathJoin3 "/node_modules" "pkg" "package.json")⟩ :=
  root_manifest_version (fun _ => some "x") (fun _ => some "9.9.9")
    ⟨[⟨"pkg", "https://pkg.csb.dev/x/_pkg.tgz"⟩], fun _ => none⟩ "pkg"
    ⟨"pkg", "https://pkg.csb.dev/x/_pkg.tgz"⟩ (by decide)

/-- C7: when path resolution yields the sentinel `//empty.js`, `fetchModule`
returns the synthesized stub (`module.exports = {};`, no requires, stubbed)
without calling `downloadDependency`; its recorded path is
`/node_modules/<path>` for a bare package specifier and the join of the
requesting module's path with the requested path otherwise.  Every non-sentinel
resolved path is downloaded instead. -/
theorem stub_on_empty_sentinel (path currentPath name version : String) :
    (fetchModuleResolved path currentPath name version "//empty.js" =
      FetchModuleOutcome.stub
        ⟨if isDependencyTest path then pathJoin "/node_modules" path
         else pathJoin currentPath path,
         "module.exports = \x7b\x7d;", [], true⟩) ∧
    (∀ foundPath, foundPath ≠ "//empty.js" →
      fetchModuleResolved path currentPath name version foundPath =
        FetchModuleOutcome.download name version foundPath) := by
  constructor
  · simp [fetchModuleResolved]
  · intro fp h
    simp [fetchModuleResolved, h]

/-- Witness for `stub_on_empty_sentinel`: a non-sentinel path is downloaded. -/
theorem stub_on_empty_sentinel_witness :
    fetchModuleResolved "pkg/sub" "/src/index.js" "pkg" "1.0.0"
        "/node_modules/pkg/sub.js" =
      FetchModuleOutcome.download "pkg" "1.0.0" "/node_modules/pkg/sub.js" :=
  (stub_on_empty_sentinel "pkg/sub" "/src/index.js" "pkg" "1.0.0").2
    "/node_modules/pkg/sub.js" (by decide)

/-- C9: with a metadata set containing `/node_modules/pkg/index.js` but not
`/node_modules/pkg/lib/x.js`, a candidate absent from both the module graph
and the metadata is a negative answer for that candidate (the line-314 guard
fires), resolving `pkg/lib/x` is a resolution miss, and resolving the bare
specifier `pkg` still succeeds by falling back to `index.js` — the resolver
keeps probing after negative candidates. -/
theorem resolution_miss_probing :
    isFileOracle [] ["/node_modules/pkg/index.js"] "/node_modules/pkg/lib/x.js" = false ∧
    readFileMisses [] ["/node_modules/pkg/index.js"] "/node_modules/pkg/lib/x.js" = true ∧
    resolveRequest (isFileOracle [] ["/node_modules/pkg/index.js"]) (fun _ => none)
        "/src/index.js" "pkg/lib/x" = none ∧
    resolveRequest (isFileOracle [] ["/node_modules/pkg/index.js"]) (fun _ => none)
        "/src/index.js" "pkg" = some "/node_modules/pkg/index.js" := by
  refine ⟨rfl, rfl, by decide, by decide⟩

/-- C4: the first `getMeta` call for a key stores its promise in `metas`, and
any later call for the same key (while the entry is present) returns that
stored promise with the cache state unchanged — in particular with no new
network request. -/
theorem meta_request_dedup (s : CacheState) (name version depName depVersion : String)
    (pkgPath : Option String) (fb fb2 : Bool) (s1 : CacheState) (p1 : Nat)
    (hres : resolveNPMAlias name version = some (depName, depVersion))
    (h1 : getMetaStep s name pkgPath version fb = some (s1, p1)) :
    mapLookup s1.metas (strOr pkgPath depName ++ "@" ++ depVersion) = some p1 ∧
    getMetaStep s1 name pkgPath version fb2 = some (s1, p1) := by
  simp only [getMetaStep, hres] at h1 ⊢
  cases hl : mapLookup s.metas (strOr pkgPath depName ++ "@" ++ depVersion) with
  | some p =>
    rw [hl] at h1
    simp only [Option.some.injEq, Prod.mk.injEq] at h1
    obtain ⟨hs, hp⟩ := h1
    subst hs
    subst hp
    rw [hl]
    exact ⟨rfl, rfl⟩
  | none =>
    rw [hl] at h1
    simp only [Option.some.injEq, Prod.mk.injEq] at h1
    obtain ⟨hs, hp⟩ := h1
    subst hs
    subst hp
    have hself : mapLookup
        ((strOr pkgPath depName ++ "@" ++ depVersion, s.nextId) :: s.metas)
        (strOr pkgPath depName ++ "@" ++ depVersion) = some s.nextId := by
      simp [mapLookup]
    refine ⟨hself, ?_⟩
    rw [hself]

/-- Witness for `meta_request_dedup`: starting from the empty cache state. -/
theorem meta_request_dedup_witness :
    mapLookup (CacheState.mk [("pkg@1.0.0", 0)] [] 1 1).metas "pkg@1.0.0" = some 0 ∧
    getMetaStep (CacheState.mk [("pkg@1.0.0", 0)] [] 1 1) "pkg" none "1.0.0" false =
      some (CacheState.mk [("pkg@1.0.0", 0)] [] 1 1, 0) :=
  meta_request_dedup (CacheState.mk [] [] 0 0) "pkg" "1.0.0" "pkg" "1.0.0" none false false
    (CacheState.mk [("pkg@1.0.0", 0)] [] 1 1) 0 (by decide) (by decide)

/-- C5: calling `downloadDependency` a second time with the same
`(name, version, path)` triple returns the identical stored promise and leaves
the cache state — including the request count — unchanged. -/
theorem download_dedup (s : CacheState) (name version path depName depVersion : String)
    (hres : resolveNPMAlias name version = some (depName, depVersion))
    (s1 : CacheState) (p1 : Nat)
    (h1 : downloadStep s name version path = some (s1, p1)) :
    mapLookup s1.packages (depName ++ depVersion ++ path) = some p1 ∧
    downloadStep s1 name version path = some (s1, p1) := by
  simp only [downloadStep, hres] at h1 ⊢
  cases hl : mapLookup s.packages (depName ++ depVersion ++ path) with
  | some p =>
    rw [hl] at h1
    simp only [Option.some.injEq, Prod.mk.injEq] at h1
    obtain ⟨hs, hp⟩ := h1
    subst hs
    subst hp
    rw [hl]
    exact ⟨rfl, rfl⟩
  | none =>
    rw [hl] at h1
    simp only [Option.some.injEq, Prod.mk.injEq] at h1
    obtain ⟨hs, hp⟩ := h1
    subst hs
    subst hp
    have hself : mapLookup
        ((depName ++ depVersion ++ path, s.nextId) :: s.packages)
        (depName ++ depVersion ++ path) = some s.nextId := by
      simp [mapLookup]
    refine ⟨hself, ?_⟩
    rw [hself]

/-- Witness for `download_dedup`: starting from the empty cache state. -/
theorem download_dedup_witness :
    mapLookup (CacheState.mk [] [("pkg1.0.0/node_modules/pkg/index.js", 0)] 1 1).packages
        "pkg1.0.0/node_modules/pkg/index.js" = some 0 ∧
    downloadStep (CacheState.mk [] [("pkg1.0.0/node_modules/pkg/index.js", 0)] 1 1)
        "pkg" "1.0.0" "/node_modules/pkg/index.js" =
      some (CacheState.mk [] [("pkg1.0.0/node_modules/pkg/index.js", 0)] 1 1, 0) :=
  download_dedup (CacheState.mk [] [] 0 0) "pkg" "1.0.0" "/node_modules/pkg/index.js"
    "pkg" "1.0.0" (by decide)
    (CacheState.mk [] [("pkg1.0.0/node_modules/pkg/index.js", 0)] 1 1) 0 (by decide)

/-- C1 counterexample: a failed content fetch does **not** remove the
`packages` entry.  After `downloadDependency` stores promise `0` for
`("pkg", "1.0.0", "/node_modules/pkg/index.js")` and that fetch fails, the
entry is still present, and a repeated call returns the stored (rejected)
promise with the request count still at `1` — no fresh request is issued,
contradicting the claim for the content half. -/
theorem content_cache_kept_on_failure_cex :
    downloadStep (CacheState.mk [] [] 0 0) "pkg" "1.0.0" "/node_modules/pkg/index.js" =
      some (CacheState.mk [] [("pkg1.0.0/node_modules/pkg/index.js", 0)] 1 1, 0) ∧
    mapLookup (downloadFetchFailed
        (CacheState.mk [] [("pkg1.0.0/node_modules/pkg/index.js", 0)] 1 1)
        "pkg1.0.0/node_modules/pkg/index.js").packages
        "pkg1.0.0/node_modules/pkg/index.js" ≠ none ∧
    downloadStep (downloadFetchFailed
        (CacheState.mk [] [("pkg1.0.0/node_modules/pkg/index.js", 0)] 1 1)
        "pkg1.0.0/node_modules/pkg/index.js") "pkg" "1.0.0" "/node_modules/pkg/index.js" =
      some (CacheState.mk [] [("pkg1.0.0/node_modules/pkg/index.js", 0)] 1 1, 0) := by
  refine ⟨by decide, by decide, by decide⟩

/-- C1 amended: a failed *metadata* fetch removes the `metas` entry, so a
later `getMeta` call for the same key issues a fresh network request; a
failed *content* fetch leaves the cache state untouched (the source installs
no rejection handler that mutates `packages`), so the stored rejected promise
remains and a later `downloadDependency` call receives it without a fresh
request. -/
theorem cache_entry_on_failure_amended (s : CacheState)
    (name version depName depVersion path : String)
    (pkgPath : Option String) (fb : Bool)
    (hres : resolveNPMAlias name version = some (depName, depVersion)) :
    mapLookup (metaFetchFailed s (strOr pkgPath depName ++ "@" ++ depVersion)).metas
        (strOr pkgPath depName ++ "@" ++ depVersion) = none ∧
    (∀ s2 p2, getMetaStep (metaFetchFailed s (strOr pkgPath depName ++ "@" ++ depVersion))
        name pkgPath version fb = some (s2, p2) → s2.requests = s.requests + 1) ∧
    downloadFetchFailed s (depName ++ depVersion ++ path) = s ∧
    (∀ p, mapLookup s.packages (depName ++ depVersion ++ path) = some p →
      downloadStep (downloadFetchFailed s (depName ++ depVersion ++ path))
          name version path = some (s, p)) := by
  have hgone : mapLookup
      (metaFetchFailed s (strOr pkgPath depName ++ "@" ++ depVersion)).metas
      (strOr pkgPath depName ++ "@" ++ depVersion) = none :=
    lookup_filter_out s.metas _
  refine ⟨hgone, ?_, rfl, ?_⟩
  · intro s2 p2 h2
    simp only [getMetaStep, hres] at h2
    rw [hgone] at h2
    simp only [Option.some.injEq, Prod.mk.injEq] at h2
    obtain ⟨hs, _⟩ := h2
    subst hs
    rfl
  · intro p hp
    simp only [downloadStep, downloadFetchFailed, hres]
    rw [hp]

/-- Witness for `cache_entry_on_failure_amended` at a concrete state holding
one meta entry and one package entry. -/
theorem cache_entry_on_failure_amended_witness :
    mapLookup (metaFetchFailed (CacheState.mk [("pkg@1.0.0", 0)] [("pkg1.0.0/i.js", 1)] 2 2)
        ("pkg" ++ "@" ++ "1.0.0")).metas ("pkg" ++ "@" ++ "1.0.0") = none ∧
    downloadFetchFailed (CacheState.mk [("pkg@1.0.0", 0)] [("pkg1.0.0/i.js", 1)] 2 2)
        ("pkg" ++ "1.0.0" ++ "/i.js") =
      CacheState.mk [("pkg@1.0.0", 0)] [("pkg1.0.0/i.js", 1)] 2 2 :=
  ⟨(cache_entry_on_failure_amended
      (CacheState.mk [("pkg@1.0.0", 0)] [("pkg1.0.0/i.js", 1)] 2 2)
      "pkg" "1.0.0" "pkg" "1.0.0" "/i.js" none false (by decide)).1,
   (cache_entry_on_failure_amended
      (CacheState.mk [("pkg@1.0.0", 0)] [("pkg1.0.0/i.js", 1)] 2 2)
      "pkg" "1.0.0" "pkg" "1.0.0" "/i.js" none false (by decide)).2.2.1⟩

/-- C6: with the default retry count of 6 and an endpoint failing every
attempt, the loop performs exactly 6 attempts, consecutive attempt starts are
at least 3000ms apart, the wait is skipped once 3000ms have already elapsed
since the previous attempt started, and the failure is raised only after the
6th attempt (the trace result is the thrown error, never a response). -/
theorem fetch_retries_spec (dur : Nat → Nat) (t0 : Nat) :
    (fetchWithRetriesModel (fun _ => false) dur 6 t0).starts.length = 6 ∧
    (fetchWithRetriesModel (fun _ => false) dur 6 t0).result = none ∧
    (fetchWithRetriesModel (fun _ => false) dur 6 t0).starts.Chain'
      (fun a b => a + 3000 ≤ b) ∧
    (∀ clock lastTryTime, 3000 ≤ clock - lastTryTime →
      delayStep clock lastTryTime = clock) := by
  simp only [fetchWithRetriesModel]
  refine ⟨(retriesRun_starts_length dur 6 6 0 t0 0 (by omega) (by omega)).1,
          (retriesRun_starts_length dur 6 6 0 t0 0 (by omega) (by omega)).2,
          retriesRun_starts_spaced dur 6 6 0 t0 0, ?_⟩
  intro clock lastTryTime h
  unfold delayStep
  rw [if_neg (by omega)]

/-- Witness for `fetch_retries_spec` at a concrete duration function and
start time, discharging the skip-condition hypothesis at `10000/2000`. -/
theorem fetch_retries_spec_witness :
    (fetchWithRetriesModel (fun _ => false) (fun _ => 4000) 6 50000).starts.length = 6 ∧
    delayStep 10000 2000 = 10000 :=
  ⟨(fetch_retries_spec (fun _ => 4000) 50000).1,
   (fetch_retries_spec (fun _ => 4000) 50000).2.2.2 10000 2000 (by decide)⟩

/-- C8 counterexample: a nested-tree response and a flat-list response
describing the same single file `index.js` (no leading slash) produce
different existence sets for the root path `/r`: `normalize` concatenates
(`/rindex.js`) while `normalizeJSDelivr` joins (`/r/index.js`). -/
theorem normalizers_disagree_cex :
    listFilePaths [MetaTree.mk "index.js" MetaFileType.file []] = ["index.js"] ∧
    "/r/index.js" ∈ normalizeJSDelivr ["index.js"] [] "/r" ∧
    "/r/index.js" ∉ normalize [MetaTree.mk "index.js" MetaFileType.file []] [] "/r" := by
  refine ⟨rfl, by decide, by decide⟩

/-- C8 amended: for a root path that does not end in `/` and metadata
responses describing the same set of file paths, each beginning with `/`, the
two normalizers produce the same existence set. -/
theorem normalizers_agree_amended (root : String) (trees : List MetaTree)
    (flat : List String)
    (hroot : root.data.getLast? ≠ some '/')
    (hsame : ∀ x, x ∈ listFilePaths trees ↔ x ∈ flat)
    (hslash : ∀ p ∈ flat, p.data.head? = some '/') :
    ∀ x, x ∈ normalize trees [] root ↔ x ∈ normalizeJSDelivr flat [] root := by
  intro x
  rw [normalize_spec, normalizeJSDelivr_spec, List.nil_append, List.nil_append]
  constructor
  · intro hx
    rcases List.mem_map.mp hx with ⟨p, hp, he⟩
    have hpf : p ∈ flat := (hsame p).mp hp
    refine List.mem_map.mpr ⟨p, hpf, ?_⟩
    rw [pathJoin_eq_append root p hroot (hslash p hpf), he]
  · intro hx
    rcases List.mem_map.mp hx with ⟨p, hp, he⟩
    refine List.mem_map.mpr ⟨p, (hsame p).mpr hp, ?_⟩
    rw [← he, pathJoin_eq_append root p hroot (hslash p hp)]

/-- Witness for `normalizers_agree_amended` at a one-file tree and flat list
with a leading slash, evaluated at the resulting absolute path. -/
theorem normalizers_agree_amended_witness :
    "/node_modules/pkg/index.js" ∈
        normalize [MetaTree.mk "/index.js" MetaFileType.file []] [] "/node_modules/pkg" ↔
    "/node_modules/pkg/index.js" ∈
        normalizeJSDelivr ["/index.js"] [] "/node_modules/pkg" :=
  normalizers_agree_amended "/node_modules/pkg"
    [MetaTree.mk "/index.js" MetaFileType.file []] ["/index.js"]
    (by decide) (fun x => Iff.rfl) (by decide) "/node_modules/pkg/index.js"

end FetchNpm
